import Mathlib

/-!
Verification development for the SPIRAL language engine (pyspiral).

Shallow embedding of the parts of the engine the specification claims talk
about: the big-step expression evaluator (`src/pyspiral/evaluator.py`), the
LIR CFG executor (`src/pyspiral/lir/evaluator.py`), the race detector
(`src/pyspiral/detectors.py`), the default task scheduler
(`src/pyspiral/scheduler.py`) and value hashing (`src/pyspiral/types.py`).

Conventions of the embedding:
* Python `dict` environments become association lists; `extend` prepends and
  `lookup` takes the first match, which is extensionally the copy-and-update
  discipline of `ValueEnv`.
* The evaluator's mutable `EvalContext.steps` counter is threaded explicitly:
  every function that can evaluate sub-expressions takes the current counter
  and returns the updated one.  `SPIRALError` exceptions raised by
  `_check_steps` are modelled by the `EvalExn.nonTermination` constructor of
  an `Except` result.
* Recursion of the interpreters is bounded by an explicit fuel parameter
  (recursion depth).  Running out of fuel is the distinct marker
  `EvalExn.outOfFuel`; it is not a behaviour of the source, only an artifact
  that lets the interpreter be total.
* Machine floats and the `uuid` library are not modelled: no claim depends on
  float arithmetic, and `uuid.uuid4().hex[:8]` is modelled as an injective
  fresh-token supply drawn from an explicit counter.
* Runtime values are frozen dataclasses (`types.py`) with no `__getitem__`
  and no `.get`; where the source nevertheless uses dict-style access on a
  value (`fn_value["params"]` in `_eval_call_expr` and `_eval_fix`,
  `cond_value.get("kind")` in the LIR branch terminator) Python raises an
  uncaught host exception.  Those crashes are modelled by the `hostCrash`
  constructors, carrying a fixed message (the host message names the
  concrete dataclass).  Instructions, terminators and expressions, by
  contrast, are plain dicts at runtime, so dict-style access on them is
  ordinary field access.
-/

namespace Spiral

/-- Literal payloads of `lit` expressions, restricted to the primitive
type annotations exercised by the claims (`_eval_lit` branches for
`int`, `bool`, `string`, `void`). -/
inductive SLit where
  | int (n : Int)
  | bool (b : Bool)
  | str (s : String)
  | void
deriving DecidableEq

mutual

/-- Expressions of the AIR/CIR fragment dispatched by `Evaluator._eval_expr`.
`call` arguments and the `if`/`let` operands are either node-reference
strings or inline expressions, exactly as `_eval_call` / the `get_value`
helpers of `_eval_if` and `_eval_let` distinguish them. -/
inductive Expr where
  | lit (l : SLit)
  | var (name : String)
  | call (ns : String) (nm : String) (args : List Arg)
  | ifE (cond thenB elseB : Arg)
  | letE (name : String) (value body : Arg)
  | lam (params : List LamParam) (body : String)
  | callExpr (fn : String) (args : List String)
  | fix (fn : String)

/-- A node-reference string or an inline expression
(the `Union[str, Expr]` pattern of the evaluator). -/
inductive Arg where
  | ref (id : String)
  | inline (e : Expr)

/-- A lambda parameter as accepted by `_eval_lambda`: either a bare name
or a full parameter record. -/
inductive LamParam where
  | plain (name : String)
  | spec (p : PSpec)

/-- The `LambdaParam` record: name, optional flag, optional default
expression (the `type` field is never read by the evaluator and is
omitted). -/
inductive PSpec where
  | mk (name : String) (optional : Bool) (dflt : Option Expr)

end

/-- Name of a parameter record. -/
def PSpec.name : PSpec → String
  | .mk n _ _ => n

/-- Optional flag of a parameter record. -/
def PSpec.optional : PSpec → Bool
  | .mk _ o _ => o

/-- Default expression of a parameter record. -/
def PSpec.dflt : PSpec → Option Expr
  | .mk _ _ d => d

/-- Runtime values (`types.py` value union), restricted to the
constructors the claims exercise.  Floats and the PIR-only values are
orthogonal to every claim.  A closure carries its parameter records,
its body expression and the captured environment snapshot. -/
inductive Val where
  | bool (b : Bool)
  | int (n : Int)
  | str (s : String)
  | list (elems : List Val)
  | set (hashes : List String)
  | map (entries : List (String × Val))
  | opt (v : Option Val)
  | closure (params : List PSpec) (body : Expr) (env : List (String × Val))
  | void
  | refCell (v : Val)
  | error (code : String) (msg : Option String)

/-- Value environments: the association-list rendering of `ValueEnv`. -/
abbrev Env := List (String × Val)

/-- Look up a binding (`ValueEnv.lookup` / `dict.get`): first match wins,
which together with prepending `extend` models dict overwrite. -/
def lookup_value (env : Env) (n : String) : Option Val :=
  match env with
  | [] => none
  | (k, v) :: rest => if k = n then some v else lookup_value rest n

/-- Extend an environment (`ValueEnv.extend`): copy-and-update, modelled
as a prepend. -/
def extend_value_env (env : Env) (n : String) (v : Val) : Env :=
  (n, v) :: env

/-- The `is_error` type guard (`types.py`). -/
def is_error : Val → Bool
  | .error _ _ => true
  | _ => false

/-- The Python `kind` tag of a value, used in error messages. -/
def kind_of : Val → String
  | .bool _ => "bool"
  | .int _ => "int"
  | .str _ => "string"
  | .list _ => "list"
  | .set _ => "set"
  | .map _ => "map"
  | .opt _ => "option"
  | .closure _ _ _ => "closure"
  | .void => "void"
  | .refCell _ => "refCell"
  | .error _ _ => "error"

/-- The undefined sentinel bound to omitted optional parameters
(`undefined_val`): an option value with no payload. -/
def undefined_val : Val := .opt none

/-- Condition test of `_eval_if`: `cond_value.kind == "bool" and
cond_value.value`. -/
def is_true_bool : Val → Bool
  | .bool b => b
  | _ => false

/-- An `UnboundIdentifier` error value with the evaluator's message. -/
def unbound_err (n : String) : Val :=
  .error "UnboundIdentifier" (some ("Unbound identifier: " ++ n))

/-- An operator entry: the evaluator consults only the parameter count
(`len(op.params)`) and the implementation, so those are what is kept of
`Operator`. -/
structure Operator where
  arity : Nat
  impl : List Val → Val

/-- The operator registry, by its lookup interface
(`OperatorRegistry.lookup(ns, name)`). -/
structure OperatorRegistry where
  lookup : String → String → Option Operator

/-- A registry with no operators. -/
def emptyRegistry : OperatorRegistry := ⟨fun _ _ => none⟩

/-- Host-level exceptional outcomes of expression evaluation:
`SPIRALError.non_termination()` raised by `_check_steps`, an uncaught
Python exception from dict-style access on a frozen-dataclass value,
and the fuel-exhaustion artifact of the embedding. -/
inductive EvalExn where
  | nonTermination
  | hostCrash (msg : String)
  | outOfFuel
deriving DecidableEq

/-- Result of one evaluation: an exception, or a value together with the
updated step counter. -/
abbrev EvalRes := Except EvalExn (Val × Nat)

/-- Evaluate a literal (`_eval_lit`, primitive branches). -/
def eval_lit : SLit → Val
  | .int n => .int n
  | .bool b => .bool b
  | .str s => .str s
  | .void => .void

/-- Convert a lambda parameter to a parameter record (`_eval_lambda`'s
normalisation loop). -/
def LamParam.toSpec : LamParam → PSpec
  | .plain n => ⟨n, false, none⟩
  | .spec p => p

/-- Whether an argument is an inline expression (the `has_inline_args`
test of `_eval_call`). -/
def Arg.isInline : Arg → Bool
  | .inline _ => true
  | .ref _ => false

/-- The node-reference name of an argument; the evaluator only reads it
to build unbound-identifier messages, which happens only for `ref`
arguments. -/
def Arg.refName : Arg → String
  | .ref n => n
  | .inline _ => ""

/-- The `get_value` helper of `_eval_if` / `_eval_let`: look up a
node-reference (possibly absent) or evaluate an inline expression. -/
def eval_arg_with (ev : Expr → Env → Nat → Nat → EvalRes)
    (a : Arg) (env : Env) (steps maxSteps : Nat) :
    Except EvalExn (Option Val × Nat) :=
  match a with
  | .ref n => .ok (lookup_value env n, steps)
  | .inline e =>
    match ev e env steps maxSteps with
    | .error exn => .error exn
    | .ok (v, s2) => .ok (some v, s2)

/-- The argument loop of `_eval_call`: node-reference arguments are
looked up (unbound is an error, but an error value bound under the name
is passed through unchecked); inline arguments are evaluated and an
error result short-circuits.  Returns `Except Val` inside: `.error v`
models the early `return v` of the loop. -/
def eval_call_args_with (ev : Expr → Env → Nat → Nat → EvalRes) :
    List Arg → Env → Nat → Nat → Except EvalExn (Except Val (List Val) × Nat)
  | [], _, steps, _ => .ok (.ok [], steps)
  | .ref n :: rest, env, steps, maxSteps =>
    match lookup_value env n with
    | none => .ok (.error (unbound_err n), steps)
    | some v =>
      match eval_call_args_with ev rest env steps maxSteps with
      | .error exn => .error exn
      | .ok (.error w, s2) => .ok (.error w, s2)
      | .ok (.ok vs, s2) => .ok (.ok (v :: vs), s2)
  | .inline e :: rest, env, steps, maxSteps =>
    match ev e env steps maxSteps with
    | .error exn => .error exn
    | .ok (v, s2) =>
      if is_error v then .ok (.error v, s2)
      else
        match eval_call_args_with ev rest env s2 maxSteps with
        | .error exn => .error exn
        | .ok (.error w, s3) => .ok (.error w, s3)
        | .ok (.ok vs, s3) => .ok (.ok (v :: vs), s3)

/-- The argument loop of `_eval_call_expr`: every argument is a
node-reference, looked up in the call-site environment; unbound is an
error and, unlike `_eval_call`, an error value is short-circuited. -/
def lookup_call_args (env : Env) : List String → Except Val (List Val)
  | [] => .ok []
  | n :: rest =>
    match lookup_value env n with
    | none => .error (.error "UnboundIdentifier" (some ("Argument not found: " ++ n)))
    | some v =>
      if is_error v then .error v
      else
        match lookup_call_args env rest with
        | .error w => .error w
        | .ok vs => .ok (v :: vs)

/-- One dispatch level of `Evaluator._eval_expr`: the step check of
`_check_steps` followed by the per-kind evaluation, with every
recursive evaluation routed through `ev` (one fuel level down).  This
is the body of the fuel-indexed interpreter `eval_expr`. -/
def eval_step (reg : OperatorRegistry)
    (ev : Expr → Env → Nat → Nat → EvalRes)
    (e : Expr) (env : Env) (steps maxSteps : Nat) : EvalRes :=
  let s := steps + 1
  if s > maxSteps then .error .nonTermination else
  match e with
  | .lit l => .ok (eval_lit l, s)
  | .var n =>
    match lookup_value env n with
    | none => .ok (unbound_err n, s)
    | some v => .ok (v, s)
  | .call ns nm args =>
    if !(args.any Arg.isInline) then
      .ok (.error "DomainError"
        (some "Call must be resolved during program evaluation"), s)
    else
      match eval_call_args_with ev args env s maxSteps with
      | .error exn => .error exn
      | .ok (.error v, s2) => .ok (v, s2)
      | .ok (.ok argVals, s2) =>
        match reg.lookup ns nm with
        | none =>
          .ok (.error "UnknownOperator"
            (some ("Unknown operator: " ++ ns ++ ":" ++ nm)), s2)
        | some op =>
          if op.arity ≠ argVals.length then
            .ok (.error "ArityError"
              (some ("Arity mismatch: " ++ toString op.arity ++
                " expected, " ++ toString argVals.length ++ " given")), s2)
          else .ok (op.impl argVals, s2)
  | .ifE c tB eB =>
    match eval_arg_with ev c env s maxSteps with
    | .error exn => .error exn
    | .ok (none, s2) => .ok (unbound_err c.refName, s2)
    | .ok (some cv, s2) =>
      if is_error cv then .ok (cv, s2)
      else if is_true_bool cv then
        match eval_arg_with ev tB env s2 maxSteps with
        | .error exn => .error exn
        | .ok (none, s3) => .ok (unbound_err tB.refName, s3)
        | .ok (some tv, s3) => .ok (tv, s3)
      else
        match eval_arg_with ev eB env s2 maxSteps with
        | .error exn => .error exn
        | .ok (none, s3) => .ok (unbound_err eB.refName, s3)
        | .ok (some ev2, s3) => .ok (ev2, s3)
  | .letE n value body =>
    match eval_arg_with ev value env s maxSteps with
    | .error exn => .error exn
    | .ok (none, s2) => .ok (unbound_err value.refName, s2)
    | .ok (some vv, s2) =>
      if is_error vv then .ok (vv, s2)
      else
        let _extended := extend_value_env env n vv
        match eval_arg_with ev body env s2 maxSteps with
        | .error exn => .error exn
        | .ok (none, s3) => .ok (unbound_err body.refName, s3)
        | .ok (some bv, s3) => .ok (bv, s3)
  | .lam params body =>
    .ok (.closure (params.map LamParam.toSpec) (.lam params body) env, s)
  | .callExpr fn args =>
    match lookup_value env fn with
    | none =>
      .ok (.error "UnboundIdentifier" (some ("Function not found: " ++ fn)), s)
    | some fv =>
      match fv with
      | .error c m => .ok (.error c m, s)
      | .closure _ _ _ =>
        match lookup_call_args env args with
        | .error v => .ok (v, s)
        | .ok _ =>
          -- After the arguments resolve, `_eval_call_expr` reads
          -- `fn_value["params"]`; a `ClosureVal` has no subscript
          -- operator, so the host raises before any arity check or
          -- parameter binding.
          .error (.hostCrash "TypeError: ClosureVal object is not subscriptable")
      | _ =>
        .ok (.error "TypeError" (some ("Expected closure, got: " ++ kind_of fv)), s)
  | .fix fn =>
    match lookup_value env fn with
    | none =>
      .ok (.error "UnboundIdentifier" (some ("Function not found: " ++ fn)), s)
    | some fv =>
      match fv with
      | .error c m => .ok (.error c m, s)
      | .closure _ _ _ =>
        -- `_eval_fix` reads `params = fn_value["params"]` right after the
        -- closure check; the subscript on the `ClosureVal` dataclass
        -- raises before the parameter count is inspected or the body
        -- evaluated.
        .error (.hostCrash "TypeError: ClosureVal object is not subscriptable")
      | _ =>
        .ok (.error "TypeError" (some ("Expected closure, got: " ++ kind_of fv)), s)

/-- The fuel-indexed big-step evaluator `Evaluator._eval_expr`.  Fuel
bounds recursion depth only; the step counter and its `NonTermination`
check are those of the source. -/
def eval_expr (reg : OperatorRegistry) (fuel : Nat) :
    Expr → Env → Nat → Nat → EvalRes :=
  Nat.rec (motive := fun _ => Expr → Env → Nat → Nat → EvalRes)
    (fun _ _ _ _ => .error .outOfFuel)
    (fun _ ih => eval_step reg ih)
    fuel

/-!
The LIR CFG executor (`src/pyspiral/lir/evaluator.py`).
-/

/-- The restricted expression language of `LIREvaluator._evaluate_expr`
(assign instruction right-hand sides): primitive literals and variable
references. -/
inductive SExpr where
  | lit (l : SLit)
  | var (name : String)

/-- A phi source: a `{"block": ..., "id": ...}` record. -/
structure PhiSource where
  block : String
  id : String
deriving DecidableEq

/-- LIR instructions (`LirInstruction` union). -/
inductive LirInstr where
  | assign (target : String) (value : SExpr)
  | call (target : String) (callee : String) (args : List String)
  | op (target : String) (ns : String) (nm : String) (args : List String)
  | phi (target : String) (sources : List PhiSource)
  | effect (target : String) (op : String) (args : List String)
  | assignRef (target : String) (value : String)

/-- LIR terminators (`LirTerminator` union). -/
inductive LirTerm where
  | jump (dest : String)
  | branch (cond thenB elseB : String)
  | ret (value : Option String)
  | exit (code : Option String)

/-- An LIR basic block. -/
structure LirBlock where
  id : String
  instructions : List LirInstr
  terminator : LirTerm

/-- The runtime state `LIRRuntimeState`: variable table, published
return value, effect log, step counter with ceiling, and the
predecessor block for phi resolution. -/
structure LIRState where
  vars : Env
  returnValue : Option Val := none
  effects : List (String × List Val) := []
  steps : Nat := 0
  maxSteps : Nat := 10000
  predecessor : Option String := none

/-- Set a variable in the table (`state.vars[target] = value`):
prepend, with first-match lookup this is dict update. -/
def set_var (vars : Env) (k : String) (v : Val) : Env :=
  (k, v) :: vars

/-- An effect entry: arity and implementation, the two fields of an
effect operation that `_execute_effect` consults. -/
structure EffectOp where
  arity : Nat
  fn : List Val → Val

/-- The effect registry by its lookup interface (`lookup_effect`). -/
structure EffectRegistry where
  lookup : String → Option EffectOp

/-- A registry with no effects. -/
def emptyEffects : EffectRegistry := ⟨fun _ => none⟩

/-- Evaluate an assign right-hand side (`_evaluate_expr`). -/
def lir_eval_sexpr (e : SExpr) (vars : Env) : Val :=
  match e with
  | .lit l => eval_lit l
  | .var n =>
    match lookup_value vars n with
    | none => unbound_err n
    | some v => v

/-- The operand-collection loop shared by `_execute_op`,
`_execute_call` and `_execute_effect`: every operand is a variable
reference; unbound is an `UnboundIdentifier` error and a bound error
value is short-circuited. -/
def lookup_op_args (vars : Env) : List String → Except Val (List Val)
  | [] => .ok []
  | a :: rest =>
    match lookup_value vars a with
    | none => .error (.error "UnboundIdentifier" (some ("Argument not found: " ++ a)))
    | some v =>
      if is_error v then .error v
      else
        match lookup_op_args vars rest with
        | .error w => .error w
        | .ok vs => .ok (v :: vs)

/-- A variable is usable by a phi source: bound and not an error
(the `if value and not is_error(value)` test). -/
def bound_non_error (vars : Env) (id : String) : Bool :=
  match lookup_value vars id with
  | none => false
  | some v => !is_error v

/-- First pass of `_execute_phi`: the first source whose block equals
the predecessor and whose variable is bound to a non-error value. -/
def phi_first_pass (pred : String) (vars : Env) : List PhiSource → Option Val
  | [] => none
  | src :: rest =>
    if src.block = pred then
      match lookup_value vars src.id with
      | some v => if is_error v then phi_first_pass pred vars rest else some v
      | none => phi_first_pass pred vars rest
    else phi_first_pass pred vars rest

/-- Fallback pass of `_execute_phi`: the first source whose variable is
bound to a non-error value, ignoring blocks. -/
def phi_fallback (vars : Env) : List PhiSource → Option Val
  | [] => none
  | src :: rest =>
    match lookup_value vars src.id with
    | some v => if is_error v then phi_fallback vars rest else some v
    | none => phi_fallback vars rest

/-- Execute a phi instruction (`_execute_phi`).  The first pass runs
only under a truthy predecessor (`if state.predecessor:` — `None` and
the empty string are falsy in Python); when it selects nothing the
fallback pass runs. -/
def execute_phi (target : String) (sources : List PhiSource)
    (st : LIRState) : Option Val × LIRState :=
  let firstPass :=
    match st.predecessor with
    | some pred => if pred = "" then none else phi_first_pass pred st.vars sources
    | none => none
  let phiValue :=
    match firstPass with
    | some v => some v
    | none => phi_fallback st.vars sources
  match phiValue with
  | none =>
    (some (.error "DomainError" (some ("Phi node has no valid sources: " ++ target))), st)
  | some v => (none, { st with vars := set_var st.vars target v })

/-- Execute an op instruction (`_execute_op`). -/
def execute_op (reg : OperatorRegistry) (target ns nm : String)
    (args : List String) (st : LIRState) : Option Val × LIRState :=
  match lookup_op_args st.vars args with
  | .error v => (some v, st)
  | .ok argVals =>
    match reg.lookup ns nm with
    | none =>
      (some (.error "UnknownOperator" (some ("Unknown operator: " ++ ns ++ ":" ++ nm))), st)
    | some op =>
      if op.arity ≠ argVals.length then
        (some (.error "ArityError"
          (some ("Operator " ++ ns ++ ":" ++ nm ++ " expects " ++
            toString op.arity ++ " args, got " ++ toString argVals.length))), st)
      else (none, { st with vars := set_var st.vars target (op.impl argVals) })

/-- Execute an assign instruction (`_execute_assign`). -/
def execute_assign (target : String) (value : SExpr)
    (st : LIRState) : Option Val × LIRState :=
  let v := lir_eval_sexpr value st.vars
  if is_error v then (some v, st)
  else (none, { st with vars := set_var st.vars target v })

/-- Execute a call instruction (`_execute_call`): operands are
collected, then the target is bound to a not-implemented error value
and execution continues successfully. -/
def execute_call (target : String) (args : List String)
    (st : LIRState) : Option Val × LIRState :=
  match lookup_op_args st.vars args with
  | .error v => (some v, st)
  | .ok _ =>
    let notImpl : Val := .error "DomainError" (some "Call not yet implemented in LIR")
    (none, { st with vars := set_var st.vars target notImpl })

/-- Execute an effect instruction (`_execute_effect`). -/
def execute_effect (effReg : EffectRegistry) (target op : String)
    (args : List String) (st : LIRState) : Option Val × LIRState :=
  match effReg.lookup op with
  | none =>
    (some (.error "UnknownOperator" (some ("Unknown effect operation: " ++ op))), st)
  | some effectOp =>
    match lookup_op_args st.vars args with
    | .error v => (some v, st)
    | .ok argVals =>
      if effectOp.arity ≠ argVals.length then
        (some (.error "ArityError"
          (some ("Effect " ++ op ++ " expects " ++ toString effectOp.arity ++
            " args, got " ++ toString argVals.length))), st)
      else
        let st2 := { st with effects := st.effects ++ [(op, argVals)] }
        (none, { st2 with vars := set_var st2.vars target (effectOp.fn argVals) })

/-- Execute an assignRef instruction (`_execute_assign_ref`): stores
under the `target + "_ref"` naming convention. -/
def execute_assign_ref (target value : String)
    (st : LIRState) : Option Val × LIRState :=
  match lookup_value st.vars value with
  | none =>
    (some (.error "UnboundIdentifier" (some ("Value not found: " ++ value))), st)
  | some v =>
    if is_error v then (some v, st)
    else (none, { st with vars := set_var st.vars (target ++ "_ref") v })

/-- Dispatch one instruction (`_execute_instruction`). -/
def execute_instruction (reg : OperatorRegistry) (effReg : EffectRegistry)
    (ins : LirInstr) (st : LIRState) : Option Val × LIRState :=
  match ins with
  | .assign target value => execute_assign target value st
  | .call target _callee args => execute_call target args st
  | .op target ns nm args => execute_op reg target ns nm args st
  | .phi target sources => execute_phi target sources st
  | .effect target op args => execute_effect effReg target op args st
  | .assignRef target value => execute_assign_ref target value st

/-- Execute the instruction list of a block (`_execute_block`): each
instruction first increments the step counter and tests the ceiling,
then executes; an error value stops the block. -/
def execute_block (reg : OperatorRegistry) (effReg : EffectRegistry) :
    List LirInstr → LIRState → Option Val × LIRState
  | [], st => (none, st)
  | ins :: rest, st =>
    let st2 := { st with steps := st.steps + 1 }
    if st2.steps > st2.maxSteps then
      (some (.error "NonTermination" (some "Block execution exceeded maximum steps")), st2)
    else
      match execute_instruction reg effReg ins st2 with
      | (some v, st3) => (some v, st3)
      | (none, st3) => execute_block reg effReg rest st3

/-- Outcome of a terminator: the next block id, a terminating value, or
an uncaught host exception. -/
inductive TermRes where
  | next (dest : String)
  | halt (v : Val)
  | crash (msg : String)

/-- Execute a terminator (`_execute_terminator`): yields the next block
id, a terminating value, or a host crash.  `return` publishes its
operand in `returnValue`; the step counter is never touched.  The
`branch` arm looks up the condition and propagates an unbound or error
condition; for every other bound condition it then evaluates
`cond_value.get("kind")`, and since runtime values are frozen
dataclasses with no `.get`, the host raises `AttributeError` before the
kind test or the branch selection (the host message names the concrete
dataclass, e.g. `BoolVal`). -/
def execute_terminator (t : LirTerm) (st : LIRState) :
    TermRes × LIRState :=
  match t with
  | .jump dest => (.next dest, st)
  | .branch c _tb _eb =>
    match lookup_value st.vars c with
    | none =>
      (.halt (.error "UnboundIdentifier" (some ("Condition variable not found: " ++ c))), st)
    | some cv =>
      if is_error cv then (.halt cv, st)
      else (.crash "AttributeError: Value object has no attribute get", st)
  | .ret value =>
    match value with
    | none => (.halt .void, st)
    | some v =>
      if v = "" then (.halt .void, st)
      else
        match lookup_value st.vars v with
        | none =>
          (.halt (.error "UnboundIdentifier" (some ("Return value not found: " ++ v))), st)
        | some rv => (.halt rv, { st with returnValue := some rv })
  | .exit code =>
    match code with
    | none => (.halt .void, st)
    | some c =>
      if c = "" then (.halt .void, st)
      else
        match lookup_value st.vars c with
        | some cv => (.halt cv, st)
        | none => (.halt .void, st)

/-- Host-level exceptional outcomes of the CFG walk: an uncaught Python
exception escaping `LIREvaluator.evaluate`, and the fuel-exhaustion
artifact of the embedding. -/
inductive CfgExn where
  | hostCrash (msg : String)
  | outOfFuel
deriving DecidableEq

/-- One iteration of the CFG walk in `LIREvaluator.evaluate`: the
revisit bookkeeping (a revisited block id costs one step and tests the
ceiling), block lookup, instruction execution, terminator dispatch, and
the predecessor update before moving on.  A terminator crash escapes
the loop as an uncaught host exception.  `recur` continues the walk
one fuel level down. -/
def cfg_step (reg : OperatorRegistry) (effReg : EffectRegistry)
    (blocks : List LirBlock)
    (recur : String → List String → LIRState → Except CfgExn (Val × LIRState))
    (current : String) (executed : List String) (st : LIRState) :
    Except CfgExn (Val × LIRState) :=
  if current = "" then .ok (st.returnValue.getD .void, st) else
  let cont := fun (executed2 : List String) (st2 : LIRState) =>
    match blocks.find? (fun b => b.id = current) with
    | none => .ok (.error "ValidationError" (some ("Block not found: " ++ current)), st2)
    | some blk =>
      match execute_block reg effReg blk.instructions st2 with
      | (some v, st3) => .ok (v, st3)
      | (none, st3) =>
        match execute_terminator blk.terminator st3 with
        | (.halt v, st4) => .ok (v, st4)
        | (.crash msg, _) => .error (.hostCrash msg)
        | (.next nxt, st4) => recur nxt executed2 { st4 with predecessor := some current }
  if executed.contains current then
    let st2 := { st with steps := st.steps + 1 }
    if st2.steps > st2.maxSteps then
      .ok (.error "NonTermination" (some "LIR execution exceeded maximum steps"), st2)
    else cont executed st2
  else cont (current :: executed) st

/-- The fuel-indexed CFG walk of `LIREvaluator.evaluate`, starting from
a current block id, visited set and runtime state. -/
def evaluate_cfg (reg : OperatorRegistry) (effReg : EffectRegistry)
    (blocks : List LirBlock) (fuel : Nat) :
    String → List String → LIRState → Except CfgExn (Val × LIRState) :=
  Nat.rec (motive := fun _ => String → List String → LIRState → Except CfgExn (Val × LIRState))
    (fun _ _ _ => .error .outOfFuel)
    (fun _ ih => cfg_step reg effReg blocks ih)
    fuel

/-!
The race detector (`src/pyspiral/detectors.py`).
-/

/-- Kind of a memory access. -/
inductive AccessKind where
  | read
  | write
deriving DecidableEq

/-- Python rendering of an access kind, used in descriptions. -/
def AccessKind.toStr : AccessKind → String
  | .read => "read"
  | .write => "write"

/-- A recorded memory access (`MemoryAccess`): task, location, kind,
value, timestamp, and the happens-before set of task ids the access
inherits from its task's sync points. -/
structure MemoryAccess where
  taskId : String
  location : String
  type : AccessKind
  value : Val
  timestamp : Nat
  happensBefore : List String

/-- A race report (`RaceCondition`). -/
structure RaceCondition where
  location : String
  tasks : String × String
  accessTypes : AccessKind × AccessKind
  conflictType : String
  description : String
deriving DecidableEq

/-- The happens-before test `_has_happens_before`: either access's
happens-before set contains the other's task id, or the two sets share
an ancestor. -/
def has_happens_before (a1 a2 : MemoryAccess) : Bool :=
  a1.happensBefore.contains a2.taskId ||
  a2.happensBefore.contains a1.taskId ||
  a1.happensBefore.any (fun anc => a2.happensBefore.contains anc)

/-- Conflict type of a pair (`_get_conflict_type`); `none` for
read-read. -/
def get_conflict_type (a1 a2 : MemoryAccess) : Option String :=
  if a1.type = .write ∧ a2.type = .write then some "W-W"
  else if a1.type = .write ∧ a2.type = .read then some "W-R"
  else if a1.type = .read ∧ a2.type = .write then some "R-W"
  else none

/-- The human-readable description (`_generate_race_description`). -/
def race_description (location task1 task2 : String)
    (type1 type2 : AccessKind) : String :=
  "Potential data race at location \"" ++ location ++ "\": task \"" ++ task1 ++
  "\" performs " ++ type1.toStr ++ " and task \"" ++ task2 ++ "\" performs " ++
  type2.toStr ++
  " without happens-before ordering. This could lead to undefined behavior."

/-- Check a pair of accesses for a race (`_check_pair_for_race`). -/
def check_pair_for_race (location : String) (a1 a2 : MemoryAccess) :
    Option RaceCondition :=
  if a1.taskId = a2.taskId then none
  else if has_happens_before a1 a2 then none
  else
    match get_conflict_type a1 a2 with
    | none => none
    | some ct =>
      some ⟨location, (a1.taskId, a2.taskId), (a1.type, a2.type), ct,
        race_description location a1.taskId a2.taskId a1.type a2.type⟩

/-- All index-ordered pairs of a list, in the order of the nested
`for i / for j in range(i+1, ...)` loops of `detect_races`. -/
def ordered_pairs : List MemoryAccess → List (MemoryAccess × MemoryAccess)
  | [] => []
  | x :: xs => xs.map (fun y => (x, y)) ++ ordered_pairs xs

/-- The race detection pass `RaceDetector.detect_races` over the
location-indexed access table. -/
def detect_races (accesses : List (String × List MemoryAccess)) :
    List RaceCondition :=
  accesses.foldl
    (fun races le =>
      races ++ (ordered_pairs le.2).filterMap
        (fun p => check_pair_for_race le.1 p.1 p.2))
    []

/-!
The default task scheduler (`src/pyspiral/scheduler.py`), restricted to
the task-table view consulted by `is_complete` and `cancel`.
-/

/-- Task status. -/
inductive TaskStatus where
  | pending
  | completed
  | failed
deriving DecidableEq

/-- The task table `DefaultTaskScheduler._tasks`, keyed by task id
(dict keys are unique). -/
abbrev TaskTable := List (String × TaskStatus)

/-- Look up a task (`self._tasks.get(task_id)`). -/
def lookup_task (tasks : TaskTable) (id : String) : Option TaskStatus :=
  match tasks with
  | [] => none
  | (k, v) :: rest => if k = id then some v else lookup_task rest id

/-- Cancel a task (`DefaultTaskScheduler.cancel`): a missing id is a
no-op; otherwise the task is marked failed, its future cancelled, and
the entry deleted from the table — the table afterwards has no entry
for the id. -/
def cancel (tasks : TaskTable) (id : String) : TaskTable :=
  match lookup_task tasks id with
  | none => tasks
  | some _ => tasks.filter (fun kv => kv.1 ≠ id)

/-- Completion test (`DefaultTaskScheduler.is_complete`): a missing id
reports `true` ("Task doesn't exist = completed"); otherwise the status
must be completed or failed. -/
def is_complete (tasks : TaskTable) (id : String) : Bool :=
  match lookup_task tasks id with
  | none => true
  | some st => st = .completed || st = .failed

/-!
Value hashing (`hash_value` in `src/pyspiral/types.py`) and the set/map
literal construction of `Evaluator._eval_lit`.
-/

/-- Python `str(bool)`. -/
def py_bool_repr (b : Bool) : String := if b then "True" else "False"

/-- The fresh identity token consumed by complex values: the source
draws `uuid.uuid4().hex[:8]`; the embedding models that random supply
as an injective function of an explicit token counter. -/
def fresh_token (c : Nat) : String := String.mk (List.replicate c 'x')

/-- Hash a value (`hash_value`), threading the fresh-token counter.
Primitives and options hash structurally; every other kind consumes a
fresh token.  (The float branch is unmodelled along with float
values.) -/
def hash_value : Val → Nat → String × Nat
  | .bool b, c => ("b:" ++ py_bool_repr b, c)
  | .int n, c => ("i:" ++ toString n, c)
  | .str s, c => ("s:" ++ s, c)
  | .opt none, c => ("o:none", c)
  | .opt (some v), c =>
    let r := hash_value v c
    ("o:some:" ++ r.1, r.2)
  | _, c => ("ref:" ++ fresh_token c, c + 1)

/-- The values on which `hash_value` consumes no token: primitives and
option chains ending in `none` or a primitive. -/
def hashable_prim : Val → Bool
  | .bool _ => true
  | .int _ => true
  | .str _ => true
  | .opt none => true
  | .opt (some v) => hashable_prim v
  | _ => false

/-- Number of `o:some:` layers a value's hash is wrapped in. -/
def opt_layers : Val → Nat
  | .opt (some v) => opt_layers v + 1
  | _ => 0

/-- The `o:some:` wrapping repeated. -/
def some_wrap : Nat → String
  | 0 => ""
  | k + 1 => "o:some:" ++ some_wrap k

/-- The set-literal branch of `_eval_lit`
(`set(hash_value(v) for v in value)`): hash every element, keep the
distinct hash strings. -/
def eval_set_lit : List Val → Nat → List String × Nat
  | [], c => ([], c)
  | v :: rest, c =>
    let r := hash_value v c
    let rs := eval_set_lit rest r.2
    (if rs.1.contains r.1 then rs.1 else r.1 :: rs.1, rs.2)

/-- Dict insert-or-overwrite used by the map-literal branch. -/
def map_upsert (m : List (String × Val)) (k : String) (v : Val) :
    List (String × Val) :=
  if m.any (fun kv => kv.1 = k) then
    m.map (fun kv => if kv.1 = k then (k, v) else kv)
  else m ++ [(k, v)]

/-- The map-literal branch of `_eval_lit`
(`map_dict[hash_value(k)] = v` over the entry list, in order: a later
entry with an equal key hash overwrites an earlier one). -/
def eval_map_lit (entries : List (Val × Val)) (c : Nat) :
    List (String × Val) × Nat :=
  entries.foldl
    (fun acc kv =>
      let r := hash_value kv.1 acc.2
      (map_upsert acc.1 r.1 kv.2, r.2))
    ([], c)

/-!
Comparison definitions and concrete fixtures.
-/

/-- Modelled from the claim's words, for comparison with `execute_phi`:
the selected source is "the source whose predecessor-block equals the
block executed immediately before the current one; if no such source
exists, the first source in declared order whose variable is bound in
the current variable table". -/
def phi_selected_claim (sources : List PhiSource) (pred : Option String)
    (vars : Env) : Option PhiSource :=
  match sources.find? (fun src => pred == some src.block) with
  | some src => some src
  | none => sources.find? (fun src => (lookup_value vars src.id).isSome)

/-- A caller-supplied registry holding one binary operator `t:konst`
whose implementation ignores its operands and returns `int 0`.  The
registry is a constructor parameter of the evaluator and `register`
accepts arbitrary implementations, so this is within the engine's
public surface. -/
def konstRegistry : OperatorRegistry :=
  ⟨fun ns nm => if ns = "t" ∧ nm = "konst" then some ⟨2, fun _ => .int 0⟩ else none⟩

/-- Fixture access table for the race-detection claim: two writes to
location `L` by distinct tasks with empty happens-before sets. -/
def c8_accs : List (String × List MemoryAccess) :=
  [("L", [⟨"t1", "L", .write, .int 1, 0, []⟩, ⟨"t2", "L", .write, .int 2, 1, []⟩])]

/-- The single race report produced from `c8_accs`. -/
def c8_race : RaceCondition :=
  ⟨"L", ("t1", "t2"), (.write, .write), "W-W",
    race_description "L" "t1" "t2" .write .write⟩

/-!
Theorems.  Shared helper lemmas come first, then one theorem per claim
(with its witness or counterexample where required).
-/

/-- Unfolding of the fuel-indexed evaluator at a successor fuel. -/
theorem eval_expr_succ (reg : OperatorRegistry) (fuel : Nat) :
    eval_expr reg (fuel + 1) = eval_step reg (eval_expr reg fuel) := rfl

/-- Unfolding of the fuel-indexed CFG walk at a successor fuel. -/
theorem evaluate_cfg_succ (reg : OperatorRegistry) (effReg : EffectRegistry)
    (blocks : List LirBlock) (fuel : Nat) :
    evaluate_cfg reg effReg blocks (fuel + 1)
      = cfg_step reg effReg blocks (evaluate_cfg reg effReg blocks fuel) := rfl

/-- C1: the spec says `let(x, e1, e2)` evaluates `e2` in the
environment extended with `x ↦ v`.  The code computes `extended_env`
and never uses it, so `let(x, lit(int,1), var(x))` in the empty
environment yields `UnboundIdentifier` although the binding should make
it yield `int 1` (second conjunct: evaluating the body in the extended
environment, as the code's own E-Let docstring prescribes, does yield
`int 1`). -/
theorem c1_let_binding_discarded :
    eval_expr emptyRegistry 3
        (.letE "x" (.inline (.lit (.int 1))) (.inline (.var "x"))) [] 0 100
      = .ok (.error "UnboundIdentifier" (some "Unbound identifier: x"), 3)
    ∧ eval_expr emptyRegistry 1 (.var "x")
        (extend_value_env [] "x" (.int 1)) 2 100
      = .ok (.int 1, 3) :=
  ⟨rfl, rfl⟩

/-- C2: the spec (and the code's own E-Fix docstring) says `fix` binds
the parameter to the closure itself in the closure's captured
environment and evaluates the body, and that a closure with a parameter
count other than one gives a `TypeError` error value.  The code never
gets there: `_eval_fix` reads `fn_value["params"]` on the `ClosureVal`
frozen dataclass, which has no subscript operator, so every `fix` whose
operand is a closure raises an uncaught host `TypeError` before the
parameter is bound or the body evaluated — for a one-parameter closure
(first conjunct) and for a two-parameter closure (second conjunct), so
the claimed arity `TypeError` error value is unreachable as well. -/
theorem c2_fix_host_crash :
    eval_expr emptyRegistry 2 (.fix "f")
        [("f", .closure [⟨"x", false, none⟩] (.var "y") [("y", .int 7)])] 0 100
      = .error (.hostCrash "TypeError: ClosureVal object is not subscriptable")
    ∧ eval_expr emptyRegistry 2 (.fix "g")
        [("g", .closure [⟨"x", false, none⟩, ⟨"z", false, none⟩] (.var "y") [])] 0 100
      = .error (.hostCrash "TypeError: ClosureVal object is not subscriptable") :=
  ⟨rfl, rfl⟩

/-- C4 counterexample: a phi with sources `[(b0,x),(b1,y)]` reached
along predecessor `b0`, where `x` is unbound and `y ↦ 5`.  The claim
selects the source `(b0,x)` (it is the unique source whose
predecessor-block equals the previous block — second conjunct), but the
code assigns the target from `(b1,y)`: the target receives `5`
although `x` is unbound (third conjunct). -/
theorem c4_phi_counterexample :
    execute_phi "t" [⟨"b0", "x"⟩, ⟨"b1", "y"⟩]
        { vars := [("y", Val.int 5)], predecessor := some "b0" }
      = (none, { vars := [("t", Val.int 5), ("y", Val.int 5)],
                 predecessor := some "b0" })
    ∧ phi_selected_claim [⟨"b0", "x"⟩, ⟨"b1", "y"⟩] (some "b0") [("y", Val.int 5)]
        = some ⟨"b0", "x"⟩
    ∧ lookup_value [("y", Val.int 5)] "x" = none :=
  ⟨rfl, rfl, rfl⟩

/-- C5 counterexample: a block node with a single empty block ending in
`return`, run with `max_steps = 0`.  The claim says the executed
terminator counts one step, which would push the counter past the limit
and produce `NonTermination`; the code returns `void` with the step
counter still `0`. -/
theorem c5_terminator_not_counted :
    evaluate_cfg emptyRegistry emptyEffects [⟨"b0", [], .ret none⟩] 2 "b0" []
        { vars := [], maxSteps := 0 }
      = .ok (.void, { vars := [], maxSteps := 0 })
    ∧ ({ vars := [], maxSteps := 0 } : LIRState).steps = 0 :=
  ⟨rfl, rfl⟩

/-- C6 counterexample: in the expression evaluator's `call` form, a
node-reference operand bound to an error value is not short-circuited:
with `a ↦ error` the call `t:konst(lit(int,1), a)` invokes the
registered implementation and returns its result `int 0` instead of
propagating the error operand. -/
theorem c6_ref_operand_not_shortcircuited :
    eval_expr konstRegistry 3
        (.call "t" "konst" [.inline (.lit (.int 1)), .ref "a"])
        [("a", .error "DomainError" (some "boom"))] 0 100
      = .ok (.int 0, 2)
    ∧ is_error (.int 0) = false :=
  ⟨rfl, rfl⟩

/-- C7 counterexample: an `if` whose condition evaluates to the
non-error, non-bool value `int 1` does not produce a `TypeError`; the
else branch is taken and its value `int 20` is returned. -/
theorem c7_nonbool_cond_takes_else :
    eval_expr emptyRegistry 3
        (.ifE (.inline (.lit (.int 1))) (.ref "t") (.ref "e"))
        [("t", .int 10), ("e", .int 20)] 0 100
      = .ok (.int 20, 2)
    ∧ is_error (.int 20) = false :=
  ⟨rfl, rfl⟩

/-- C9 counterexample: `is_complete` on an id that was never spawned
returns `true` (the code comments "Task doesn't exist = completed"),
while the claim requires `false` for a never-spawned id. -/
theorem c9_unknown_id_complete :
    is_complete [] "t1" = true ∧ lookup_task [] "t1" = none :=
  ⟨rfl, rfl⟩

/-- C10 counterexample: `hash_value` is not deterministic on every
option value: an option wrapping a complex payload consumes a fresh
identity token, so two calls on the very same value
`option(some(void))` return different strings. -/
theorem c10_option_hash_nondeterministic :
    (hash_value (.opt (some .void)) 0).1 = "o:some:ref:"
    ∧ (hash_value (.opt (some .void)) 1).1 = "o:some:ref:x"
    ∧ (hash_value (.opt (some .void)) 0).1 ≠ (hash_value (.opt (some .void)) 1).1 :=
  ⟨rfl, rfl, by decide⟩



/-- Reduction of the evaluator on an `if` expression under the step
budget: the source's `_eval_if` structure. -/
theorem eval_expr_ifE_eq (reg : OperatorRegistry) (fuel : Nat)
    (condA thenB elseB : Arg) (env : Env) (steps maxSteps : Nat)
    (h : steps + 1 ≤ maxSteps) :
    eval_expr reg (fuel + 1) (.ifE condA thenB elseB) env steps maxSteps
      = match eval_arg_with (eval_expr reg fuel) condA env (steps + 1) maxSteps with
        | .error exn => .error exn
        | .ok (none, s2) => .ok (unbound_err condA.refName, s2)
        | .ok (some cv, s2) =>
          if is_error cv then .ok (cv, s2)
          else if is_true_bool cv then
            match eval_arg_with (eval_expr reg fuel) thenB env s2 maxSteps with
            | .error exn => .error exn
            | .ok (none, s3) => .ok (unbound_err thenB.refName, s3)
            | .ok (some tv, s3) => .ok (tv, s3)
          else
            match eval_arg_with (eval_expr reg fuel) elseB env s2 maxSteps with
            | .error exn => .error exn
            | .ok (none, s3) => .ok (unbound_err elseB.refName, s3)
            | .ok (some ev2, s3) => .ok (ev2, s3) := by
  show eval_step reg (eval_expr reg fuel) (.ifE condA thenB elseB) env steps maxSteps = _
  simp only [eval_step]
  rw [if_neg (by omega)]

/-- C7 (amended): the condition of an `if` is evaluated first; an error
condition propagates as the result; a `bool true` condition selects the
then branch; any other non-error condition (including every non-bool
value) selects the else branch.  No `TypeError` is produced. -/
theorem c7_if_semantics (reg : OperatorRegistry) (fuel : Nat)
    (condA thenB elseB : Arg) (env : Env) (steps maxSteps : Nat)
    (cv : Val) (s2 : Nat)
    (hstep : steps + 1 ≤ maxSteps)
    (hc : eval_arg_with (eval_expr reg fuel) condA env (steps + 1) maxSteps
      = .ok (some cv, s2)) :
    (is_error cv = true →
      eval_expr reg (fuel + 1) (.ifE condA thenB elseB) env steps maxSteps
        = .ok (cv, s2))
    ∧ (cv = .bool true →
      ∀ tv s3,
        eval_arg_with (eval_expr reg fuel) thenB env s2 maxSteps = .ok (some tv, s3) →
        eval_expr reg (fuel + 1) (.ifE condA thenB elseB) env steps maxSteps
          = .ok (tv, s3))
    ∧ (is_error cv = false → is_true_bool cv = false →
      ∀ ev2 s3,
        eval_arg_with (eval_expr reg fuel) elseB env s2 maxSteps = .ok (some ev2, s3) →
        eval_expr reg (fuel + 1) (.ifE condA thenB elseB) env steps maxSteps
          = .ok (ev2, s3)) := by
  rw [eval_expr_ifE_eq reg fuel condA thenB elseB env steps maxSteps hstep, hc]
  refine ⟨fun herr => by simp [herr], fun hb tv s3 ht => ?_, fun he hb ev2 s3 hel => ?_⟩
  · subst hb
    simp [is_error, is_true_bool, ht]
  · simp [he, hb, hel]

/-- Witness for C7: concrete instance with a non-bool condition. -/
theorem c7_if_semantics_witness :
    eval_expr emptyRegistry 3
        (.ifE (.inline (.lit (.int 1))) (.ref "t") (.ref "e"))
        [("t", .int 10), ("e", .int 20)] 0 100
      = .ok (.int 20, 2) :=
  (c7_if_semantics emptyRegistry 2 (.inline (.lit (.int 1))) (.ref "t") (.ref "e")
      [("t", .int 10), ("e", .int 20)] 0 100 (.int 1) 2 (by omega) rfl).2.2
    rfl rfl (.int 20) 2 rfl

/-- Deleting every entry of an id from the task table makes its lookup
miss. -/
theorem lookup_task_filter_self (tasks : TaskTable) (id : String) :
    lookup_task (tasks.filter fun kv => !decide (kv.1 = id)) id = none := by
  induction tasks with
  | nil => rfl
  | cons kv rest ih =>
    by_cases h : kv.1 = id
    · simpa [List.filter, h] using ih
    · simp [List.filter, h, lookup_task, ih]

/-- C9 (amended): `is_complete(t)` is true iff `t` is absent from the
task table or its status is completed or failed; it is false exactly
for a spawned task still pending; after `cancel(t)` (which deletes the
entry) it reports true. -/
theorem c9_is_complete_semantics :
    (∀ tasks id, is_complete tasks id = true ↔
        (lookup_task tasks id = none ∨
         ∃ st, lookup_task tasks id = some st ∧ (st = .completed ∨ st = .failed)))
    ∧ (∀ tasks id, lookup_task tasks id = some .pending →
        is_complete tasks id = false)
    ∧ (∀ tasks id, is_complete (cancel tasks id) id = true) := by
  refine ⟨fun tasks id => ?_, fun tasks id h => ?_, fun tasks id => ?_⟩
  · cases h : lookup_task tasks id with
    | none => simp [is_complete, h]
    | some st => cases st <;> simp [is_complete, h]
  · simp [is_complete, h]
  · cases h : lookup_task tasks id with
    | none => simp [cancel, h, is_complete]
    | some st => simp [cancel, h, is_complete, lookup_task_filter_self]

/-- Witness for C9: a pending task is not complete; after cancel it is. -/
theorem c9_is_complete_semantics_witness :
    is_complete [("t1", TaskStatus.pending)] "t1" = false
    ∧ is_complete (cancel [("t1", TaskStatus.pending)] "t1") "t1" = true :=
  ⟨c9_is_complete_semantics.2.1 [("t1", TaskStatus.pending)] "t1" rfl,
   c9_is_complete_semantics.2.2 [("t1", TaskStatus.pending)] "t1"⟩

/-- The first pass of phi resolution selects the first source in
declared order whose block equals the predecessor and whose variable is
bound to a non-error value. -/
theorem phi_first_pass_eq_find (pred : String) (vars : Env) (sources : List PhiSource) :
    phi_first_pass pred vars sources
      = (sources.find? fun src => src.block == pred && bound_non_error vars src.id).bind
          (fun src => lookup_value vars src.id) := by
  induction sources with
  | nil => rfl
  | cons src rest ih =>
    simp only [phi_first_pass, List.find?]
    by_cases hb : src.block = pred
    · cases hv : lookup_value vars src.id with
      | none => simp [hb, hv, bound_non_error, ih]
      | some v =>
        by_cases he : is_error v
        · simp [hb, hv, he, bound_non_error, ih]
        · simp [hb, hv, he, bound_non_error]
    · have hb2 : (src.block == pred) = false := by simpa using hb
      simp [hb, hb2, bound_non_error, ih]

/-- The fallback pass of phi resolution selects the first source in
declared order whose variable is bound to a non-error value. -/
theorem phi_fallback_eq_find (vars : Env) (sources : List PhiSource) :
    phi_fallback vars sources
      = (sources.find? fun src => bound_non_error vars src.id).bind
          (fun src => lookup_value vars src.id) := by
  induction sources with
  | nil => rfl
  | cons src rest ih =>
    simp only [phi_fallback, List.find?]
    cases hv : lookup_value vars src.id with
    | none => simp [hv, bound_non_error, ih]
    | some v =>
      by_cases he : is_error v
      · simp [hv, he, bound_non_error, ih]
      · simp [hv, he, bound_non_error]

/-- C4 (amended): the phi target is assigned from the first source in
declared order whose predecessor-block equals the previous block and
whose variable is bound to a non-error value; when no source qualifies
(including when a predecessor-matching source exists but its variable
is unbound or an error), the first source in declared order whose
variable is bound to a non-error value is used; when none qualifies the
phi yields a `DomainError`. -/
theorem c4_phi_resolution :
    (∀ target sources st p src v,
      st.predecessor = some p → p ≠ "" →
      (sources.find? fun s2 => s2.block == p && bound_non_error st.vars s2.id) = some src →
      lookup_value st.vars src.id = some v →
      execute_phi target sources st
        = (none, { st with vars := set_var st.vars target v }))
    ∧ (∀ target sources st p src v,
      st.predecessor = some p → p ≠ "" →
      (sources.find? fun s2 => s2.block == p && bound_non_error st.vars s2.id) = none →
      (sources.find? fun s2 => bound_non_error st.vars s2.id) = some src →
      lookup_value st.vars src.id = some v →
      execute_phi target sources st
        = (none, { st with vars := set_var st.vars target v }))
    ∧ (∀ target sources st src v,
      st.predecessor = none →
      (sources.find? fun s2 => bound_non_error st.vars s2.id) = some src →
      lookup_value st.vars src.id = some v →
      execute_phi target sources st
        = (none, { st with vars := set_var st.vars target v }))
    ∧ (∀ target sources st p,
      st.predecessor = some p → p ≠ "" →
      (sources.find? fun s2 => s2.block == p && bound_non_error st.vars s2.id) = none →
      (sources.find? fun s2 => bound_non_error st.vars s2.id) = none →
      execute_phi target sources st
        = (some (.error "DomainError"
            (some ("Phi node has no valid sources: " ++ target))), st)) := by
  refine ⟨?_, ?_, ?_, ?_⟩
  · intro target sources st p src v hpred hne hfind hval
    simp [execute_phi, hpred, hne, phi_first_pass_eq_find, hfind, hval]
  · intro target sources st p src v hpred hne hfind hfall hval
    simp [execute_phi, hpred, hne, phi_first_pass_eq_find, phi_fallback_eq_find,
      hfind, hfall, hval]
  · intro target sources st src v hpred hfall hval
    simp [execute_phi, hpred, phi_fallback_eq_find, hfall, hval]
  · intro target sources st p hpred hne hfind hfall
    simp [execute_phi, hpred, hne, phi_first_pass_eq_find, phi_fallback_eq_find,
      hfind, hfall]

/-- Witness for C4: a phi whose predecessor-matching source is bound. -/
theorem c4_phi_resolution_witness :
    execute_phi "t" [⟨"b0", "x"⟩, ⟨"b1", "y"⟩]
        { vars := [("x", Val.int 1), ("y", Val.int 5)], predecessor := some "b0" }
      = (none, { vars := [("t", Val.int 1), ("x", Val.int 1), ("y", Val.int 5)],
                 predecessor := some "b0" }) :=
  c4_phi_resolution.1 "t" [⟨"b0", "x"⟩, ⟨"b1", "y"⟩]
    { vars := [("x", Val.int 1), ("y", Val.int 5)], predecessor := some "b0" }
    "b0" ⟨"b0", "x"⟩ (Val.int 1) rfl (by decide) rfl rfl

/-- C5 (amended): every executed instruction increments the step counter
by exactly one and every revisit of an already-executed block increments
it by exactly one, each increment testing the ceiling and stopping with
a `NonTermination` error value when it exceeds `max_steps`; executed
terminators never touch the counter. -/
theorem c5_step_accounting :
    (∀ t st, (execute_terminator t st).2.steps = st.steps)
    ∧ (∀ reg effReg ins st,
        (execute_instruction reg effReg ins st).2.steps = st.steps)
    ∧ (∀ reg effReg instrs st st2,
        execute_block reg effReg instrs st = (none, st2) →
        st2.steps = st.steps + instrs.length)
    ∧ (∀ reg effReg ins instrs st,
        st.steps + 1 > st.maxSteps →
        execute_block reg effReg (ins :: instrs) st
          = (some (.error "NonTermination"
              (some "Block execution exceeded maximum steps")),
             { st with steps := st.steps + 1 }))
    ∧ (∀ reg effReg blocks fuel current executed st,
        current ≠ "" → executed.contains current = true →
        st.steps + 1 > st.maxSteps →
        evaluate_cfg reg effReg blocks (fuel + 1) current executed st
          = .ok (.error "NonTermination"
              (some "LIR execution exceeded maximum steps"),
             { st with steps := st.steps + 1 })) := by
  have hterm : ∀ t st, (execute_terminator t st).2.steps = st.steps := by
    intro t st
    cases t <;> simp only [execute_terminator] <;> (repeat' split) <;> rfl
  have hins : ∀ reg effReg ins st,
      (execute_instruction reg effReg ins st).2.steps = st.steps := by
    intro reg effReg ins st
    cases ins <;>
      simp only [execute_instruction, execute_assign, execute_call, execute_op,
        execute_phi, execute_effect, execute_assign_ref] <;>
      (repeat' split) <;> rfl
  refine ⟨hterm, hins, ?_, ?_, ?_⟩
  · intro reg effReg instrs
    induction instrs with
    | nil =>
      intro st st2 h
      simp only [execute_block] at h
      cases h
      simp
    | cons ins rest ih =>
      intro st st2 h
      simp only [execute_block] at h
      by_cases hover : st.steps + 1 > st.maxSteps
      · rw [if_pos (by simpa using hover)] at h
        cases h
      · rw [if_neg (by simpa using hover)] at h
        cases hexec : execute_instruction reg effReg ins { st with steps := st.steps + 1 } with
        | mk res st3 =>
          rw [hexec] at h
          cases res with
          | some v => cases h
          | none =>
            have h3 := ih st3 st2 h
            have hsteps : st3.steps = st.steps + 1 := by
              have := hins reg effReg ins { st with steps := st.steps + 1 }
              rw [hexec] at this
              simpa using this
            simp [h3, hsteps, List.length_cons]
            omega
  · intro reg effReg ins instrs st hover
    simp only [execute_block]
    rw [if_pos (by simpa using hover)]
  · intro reg effReg blocks fuel current executed st hcur hcont hover
    rw [evaluate_cfg_succ]
    simp only [cfg_step]
    rw [if_neg hcur, if_pos (by simpa using hcont), if_pos (by simpa using hover)]

/-- Witness for C5: a block revisit over the ceiling stops with
`NonTermination`. -/
theorem c5_step_accounting_witness :
    evaluate_cfg emptyRegistry emptyEffects [] 1 "b0" ["b0"]
        { vars := [], steps := 5, maxSteps := 5 }
      = .ok (.error "NonTermination" (some "LIR execution exceeded maximum steps"),
             { vars := [], steps := 6, maxSteps := 5 }) :=
  c5_step_accounting.2.2.2.2 emptyRegistry emptyEffects [] 0 "b0" ["b0"]
    { vars := [], steps := 5, maxSteps := 5 } (by decide) (by decide) (by decide)

/-- Splitting the operator-call argument loop at a list append. -/
theorem eval_call_args_append (ev : Expr → Env → Nat → Nat → EvalRes)
    (pre rest : List Arg) (env : Env) (m : Nat) :
    ∀ s preVals s2,
    eval_call_args_with ev pre env s m = .ok (.ok preVals, s2) →
    eval_call_args_with ev (pre ++ rest) env s m
      = match eval_call_args_with ev rest env s2 m with
        | .error exn => .error exn
        | .ok (.error w, s3) => .ok (.error w, s3)
        | .ok (.ok vs, s3) => .ok (.ok (preVals ++ vs), s3) := by
  induction pre with
  | nil =>
    intro s preVals s2 h
    simp only [eval_call_args_with] at h
    cases h
    simp only [List.nil_append]
    cases hr : eval_call_args_with ev rest env s m with
    | error exn => rfl
    | ok pr =>
      cases pr with
      | mk r s3 => cases r <;> rfl
  | cons a pre ih =>
    intro s preVals s2 h
    cases a with
    | ref n =>
      simp only [eval_call_args_with, List.cons_append] at h ⊢
      cases hl : lookup_value env n with
      | none => simp only [hl] at h; cases h
      | some v =>
        simp only [hl] at h ⊢
        cases hrec : eval_call_args_with ev pre env s m with
        | error exn => simp only [hrec] at h; cases h
        | ok pr =>
          cases pr with
          | mk r s3 =>
            cases r with
            | error w => simp only [hrec] at h; cases h
            | ok vs2 =>
              simp only [hrec] at h
              cases h
              simp only [List.append_eq]
              rw [ih s vs2 s2 hrec]
              cases hr : eval_call_args_with ev rest env s2 m with
              | error exn => rfl
              | ok pr2 =>
                cases pr2 with
                | mk r2 s4 => cases r2 <;> rfl
    | inline e =>
      simp only [eval_call_args_with, List.cons_append] at h ⊢
      cases he : ev e env s m with
      | error exn => simp only [he] at h; cases h
      | ok pr =>
        cases pr with
        | mk v sv =>
          simp only [he] at h ⊢
          by_cases herr : is_error v
          · rw [if_pos herr] at h; cases h
          · rw [if_neg herr] at h
            rw [if_neg herr]
            cases hrec : eval_call_args_with ev pre env sv m with
            | error exn => simp only [hrec] at h; cases h
            | ok pr2 =>
              cases pr2 with
              | mk r s3 =>
                cases r with
                | error w => simp only [hrec] at h; cases h
                | ok vs2 =>
                  simp only [hrec] at h
                  cases h
                  simp only [List.append_eq]
                  rw [ih sv vs2 s2 hrec]
                  cases hr : eval_call_args_with ev rest env s2 m with
                  | error exn => rfl
                  | ok pr3 =>
                    cases pr3 with
                    | mk r2 s4 => cases r2 <;> rfl

/-- The LIR operand loop propagates an error arising in the suffix when
the prefix collects successfully. -/
theorem lookup_op_args_append_error (vars : Env) (pre rest : List String)
    (w : Val) (hrest : lookup_op_args vars rest = .error w) :
    ∀ vs, lookup_op_args vars pre = .ok vs →
    lookup_op_args vars (pre ++ rest) = .error w := by
  induction pre with
  | nil => intro vs _; simpa using hrest
  | cons a pre ih =>
    intro vs h
    simp only [lookup_op_args, List.cons_append] at h ⊢
    cases hl : lookup_value vars a with
    | none => simp only [hl] at h; cases h
    | some v =>
      simp only [hl] at h ⊢
      by_cases herr : is_error v
      · rw [if_pos herr] at h; cases h
      · rw [if_neg herr] at h
        rw [if_neg herr]
        cases hrec : lookup_op_args vars pre with
        | error w2 => simp only [hrec] at h; cases h
        | ok vs2 => simp only [List.append_eq]; rw [ih vs2 hrec]

/-- C6 (amended): operands are evaluated left-to-right; in the
expression evaluator's call form an inline-expression operand that
evaluates to an error value is propagated as the call's result without
invoking any registered implementation (the result is independent of the
registry), and in the LIR `op` instruction the first error-valued
operand is likewise propagated without invoking the implementation. -/
theorem c6_operator_error_propagation :
    (∀ reg fuel ns nm pre post a env steps maxSteps preVals errv s2 s3,
      steps + 1 ≤ maxSteps →
      eval_call_args_with (eval_expr reg fuel) pre env (steps + 1) maxSteps
        = .ok (.ok preVals, s2) →
      eval_expr reg fuel a env s2 maxSteps = .ok (errv, s3) →
      is_error errv = true →
      eval_expr reg (fuel + 1) (.call ns nm (pre ++ .inline a :: post)) env steps maxSteps
        = .ok (errv, s3))
    ∧ (∀ reg target ns nm pre post x st vs errv,
      lookup_op_args st.vars pre = .ok vs →
      lookup_value st.vars x = some errv →
      is_error errv = true →
      execute_op reg target ns nm (pre ++ x :: post) st = (some errv, st)) := by
  constructor
  · intro reg fuel ns nm pre post a env steps maxSteps preVals errv s2 s3
      hstep hpre ha herr
    have hasI : ((pre ++ .inline a :: post).any Arg.isInline) = true := by
      simp [Arg.isInline]
    rw [eval_expr_succ]
    simp only [eval_step]
    rw [if_neg (by omega), if_neg (by simp [hasI])]
    rw [eval_call_args_append (eval_expr reg fuel) pre (.inline a :: post) env
      maxSteps (steps + 1) preVals s2 hpre]
    simp only [eval_call_args_with, ha]
    simp [herr]
  · intro reg target ns nm pre post x st vs errv hpre hx herr
    have hrest : lookup_op_args st.vars (x :: post) = .error errv := by
      simp only [lookup_op_args, hx]
      rw [if_pos herr]
    simp only [execute_op]
    rw [lookup_op_args_append_error st.vars pre (x :: post) errv hrest vs hpre]

/-- Witness for C6: the inline-operand and LIR short-circuits at
concrete inputs. -/
theorem c6_operator_error_propagation_witness :
    eval_expr emptyRegistry 2 (.call "core" "add" [.inline (.var "z")])
        [("z", .error "DomainError" none)] 0 100
      = .ok (.error "DomainError" none, 2)
    ∧ execute_op emptyRegistry "t" "core" "add" ["x"]
        { vars := [("x", .error "DomainError" none)] }
      = (some (.error "DomainError" none),
         { vars := [("x", .error "DomainError" none)] }) :=
  ⟨c6_operator_error_propagation.1 emptyRegistry 1 "core" "add" [] []
      (.var "z") [("z", .error "DomainError" none)] 0 100 []
      (.error "DomainError" none) 1 2 (by omega) rfl rfl rfl,
   c6_operator_error_propagation.2 emptyRegistry "t" "core" "add" [] []
      "x" { vars := [("x", .error "DomainError" none)] } []
      (.error "DomainError" none) rfl rfl rfl⟩

/-- Hashing consumes no fresh token and is counter-independent on
primitives and option chains of primitives. -/
theorem hash_det : ∀ (v : Val) (c c2 : Nat), hashable_prim v = true →
    (hash_value v c).1 = (hash_value v c2).1 ∧ (hash_value v c).2 = c
  | .bool _, _, _, _ => ⟨rfl, rfl⟩
  | .int _, _, _, _ => ⟨rfl, rfl⟩
  | .str _, _, _, _ => ⟨rfl, rfl⟩
  | .opt none, _, _, _ => ⟨rfl, rfl⟩
  | .opt (some w), c, c2, h => by
    have ih := hash_det w c c2 (by simpa [hashable_prim] using h)
    simp only [hash_value]
    exact ⟨by rw [ih.1], ih.2⟩
  | .list _, _, _, h => by simp [hashable_prim] at h
  | .set _, _, _, h => by simp [hashable_prim] at h
  | .map _, _, _, h => by simp [hashable_prim] at h
  | .closure _ _ _, _, _, h => by simp [hashable_prim] at h
  | .void, _, _, h => by simp [hashable_prim] at h
  | .refCell _, _, _, h => by simp [hashable_prim] at h
  | .error _ _, _, _, h => by simp [hashable_prim] at h

/-- Hashing any other value consumes exactly one fresh token, which is
embedded in the resulting string after the `o:some:` wrapping. -/
theorem hash_complex_form : ∀ (v : Val) (c : Nat), hashable_prim v = false →
    (hash_value v c).1 = some_wrap (opt_layers v) ++ ("ref:" ++ fresh_token c)
    ∧ (hash_value v c).2 = c + 1
  | .opt (some w), c, h => by
    have ih := hash_complex_form w c (by simpa [hashable_prim] using h)
    refine ⟨?_, by simp only [hash_value]; exact ih.2⟩
    simp only [hash_value, opt_layers, some_wrap]
    rw [ih.1, String.append_assoc]
  | .list _, c, _ =>
    ⟨by simp [hash_value, opt_layers, some_wrap, String.empty_append], rfl⟩
  | .set _, c, _ =>
    ⟨by simp [hash_value, opt_layers, some_wrap, String.empty_append], rfl⟩
  | .map _, c, _ =>
    ⟨by simp [hash_value, opt_layers, some_wrap, String.empty_append], rfl⟩
  | .closure _ _ _, c, _ =>
    ⟨by simp [hash_value, opt_layers, some_wrap, String.empty_append], rfl⟩
  | .void, c, _ =>
    ⟨by simp [hash_value, opt_layers, some_wrap, String.empty_append], rfl⟩
  | .refCell _, c, _ =>
    ⟨by simp [hash_value, opt_layers, some_wrap, String.empty_append], rfl⟩
  | .error _ _, c, _ =>
    ⟨by simp [hash_value, opt_layers, some_wrap, String.empty_append], rfl⟩
  | .bool _, _, h => by simp [hashable_prim] at h
  | .int _, _, h => by simp [hashable_prim] at h
  | .str _, _, h => by simp [hashable_prim] at h
  | .opt none, _, h => by simp [hashable_prim] at h

/-- Length of the modelled fresh token. -/
theorem fresh_token_length (c : Nat) : (fresh_token c).length = c := by
  simp [fresh_token, String.length_mk]

/-- Distinct fresh-token counters give distinct hashes for the same
complex value. -/
theorem hash_complex_inj (v : Val) (c c2 : Nat) (h : hashable_prim v = false)
    (hne : c ≠ c2) : (hash_value v c).1 ≠ (hash_value v c2).1 := by
  intro heq
  rw [(hash_complex_form v c h).1, (hash_complex_form v c2 h).1] at heq
  have hl := congrArg String.length heq
  simp only [String.length_append, fresh_token_length] at hl
  omega

/-- A set literal holding the same complex value twice keeps two
elements. -/
theorem set_lit_no_collapse (v : Val) (c : Nat) (h : hashable_prim v = false) :
    ((eval_set_lit [v, v] c).1).length = 2 := by
  have hne := hash_complex_inj v c (c + 1) h (by omega)
  simp only [eval_set_lit, (hash_complex_form v c h).2]
  simp [List.contains, hne]

/-- A map literal with the same complex key twice keeps two entries. -/
theorem map_lit_no_collapse (v a b : Val) (c : Nat)
    (h : hashable_prim v = false) :
    ((eval_map_lit [(v, a), (v, b)] c).1).length = 2 := by
  have hne := hash_complex_inj v c (c + 1) h (by omega)
  simp only [eval_map_lit, List.foldl, (hash_complex_form v c h).2]
  simp [map_upsert, hne]

/-- C10 (amended): `hash_value` is deterministic (and token-free)
exactly on primitives and option chains ending in `none` or a
primitive; every other value consumes a fresh token embedded in its
hash, so two calls with different fresh tokens give different strings;
consequently set and map literals never collapse duplicate complex
values. -/
theorem c10_hash_semantics :
    (∀ v c c2, hashable_prim v = true →
      (hash_value v c).1 = (hash_value v c2).1 ∧ (hash_value v c).2 = c)
    ∧ (∀ v c, hashable_prim v = false →
      (hash_value v c).1 = some_wrap (opt_layers v) ++ ("ref:" ++ fresh_token c)
      ∧ (hash_value v c).2 = c + 1)
    ∧ (∀ v c c2, hashable_prim v = false → c ≠ c2 →
      (hash_value v c).1 ≠ (hash_value v c2).1)
    ∧ (∀ v c, hashable_prim v = false →
      ((eval_set_lit [v, v] c).1).length = 2)
    ∧ (∀ v a b c, hashable_prim v = false →
      ((eval_map_lit [(v, a), (v, b)] c).1).length = 2) :=
  ⟨hash_det, hash_complex_form, hash_complex_inj, set_lit_no_collapse,
    map_lit_no_collapse⟩

/-- Witness for C10: concrete instances of determinism, freshness and
non-collapsing. -/
theorem c10_hash_semantics_witness :
    ((hash_value (.opt (some (.int 5))) 0).1 = (hash_value (.opt (some (.int 5))) 7).1)
    ∧ ((hash_value (.list []) 0).1 ≠ (hash_value (.list []) 1).1)
    ∧ (((eval_set_lit [.void, .void] 0).1).length = 2)
    ∧ (((eval_map_lit [(.void, .int 1), (.void, .int 2)] 0).1).length = 2) :=
  ⟨(c10_hash_semantics.1 (.opt (some (.int 5))) 0 7 rfl).1,
   c10_hash_semantics.2.2.1 (.list []) 0 1 rfl (by omega),
   c10_hash_semantics.2.2.2.1 .void 0 rfl,
   c10_hash_semantics.2.2.2.2 .void (.int 1) (.int 2) 0 rfl⟩

/-- C3: the spec says a function application with a closure callee
checks arity against (required, total) and, within bounds, binds each
omitted optional parameter to its default evaluated in the closure's
captured environment, or to the undefined sentinel.  The code never
gets there: after resolving the argument values, `_eval_call_expr`
reads `fn_value["params"]` on the `ClosureVal` frozen dataclass, so
every application of a closure raises an uncaught host `TypeError`
before any arity check or parameter binding — with a matching argument
count (first conjunct) and with an argument count above the claimed
bound (second conjunct), where the claim requires an `ArityError`
error value. -/
theorem c3_callexpr_host_crash :
    eval_expr emptyRegistry 2 (.callExpr "f" ["x"])
        [("f", .closure [⟨"a", false, none⟩] (.var "a") []), ("x", .int 1)] 0 100
      = .error (.hostCrash "TypeError: ClosureVal object is not subscriptable")
    ∧ eval_expr emptyRegistry 2 (.callExpr "f" ["x", "x"])
        [("f", .closure [⟨"a", false, none⟩] (.var "a") []), ("x", .int 1)] 0 100
      = .error (.hostCrash "TypeError: ClosureVal object is not subscriptable") :=
  ⟨rfl, rfl⟩

/-- Both components of an index-ordered pair come from the list. -/
theorem mem_ordered_pairs :
    ∀ (l : List MemoryAccess) (p : MemoryAccess × MemoryAccess),
    p ∈ ordered_pairs l → p.1 ∈ l ∧ p.2 ∈ l := by
  intro l
  induction l with
  | nil => intro p hp; simp [ordered_pairs] at hp
  | cons x xs ih =>
    intro p hp
    simp only [ordered_pairs, List.mem_append, List.mem_map] at hp
    rcases hp with ⟨y, hy, hxy⟩ | hrec
    · cases hxy
      exact ⟨List.mem_cons_self x xs, List.mem_cons_of_mem x hy⟩
    · have := ih p hrec
      exact ⟨List.mem_cons_of_mem x this.1, List.mem_cons_of_mem x this.2⟩

/-- Membership in the race-accumulating fold. -/
theorem mem_races_foldl :
    ∀ (accs : List (String × List MemoryAccess)) (init : List RaceCondition)
      (r : RaceCondition),
    r ∈ accs.foldl
        (fun races le =>
          races ++ (ordered_pairs le.2).filterMap
            (fun p => check_pair_for_race le.1 p.1 p.2)) init ↔
    r ∈ init ∨ ∃ le ∈ accs,
      r ∈ (ordered_pairs le.2).filterMap (fun p => check_pair_for_race le.1 p.1 p.2) := by
  intro accs
  induction accs with
  | nil => intro init r; simp
  | cons le accs ih =>
    intro init r
    rw [List.foldl_cons, ih]
    simp only [List.mem_append, List.mem_cons]
    constructor
    · rintro ((h | h) | ⟨le2, hle2, h⟩)
      · exact Or.inl h
      · exact Or.inr ⟨le, Or.inl rfl, h⟩
      · exact Or.inr ⟨le2, Or.inr hle2, h⟩
    · rintro (h | ⟨le2, (heq | hle2), h⟩)
      · exact Or.inl (Or.inl h)
      · cases heq; exact Or.inl (Or.inr h)
      · exact Or.inr ⟨le2, hle2, h⟩

/-- Every race produced by the pair check has distinct tasks, no
happens-before relation in either direction or through a shared
ancestor, at least one write, and the conflict tag determined by the two
access kinds. -/
theorem check_pair_sound (loc : String) (a1 a2 : MemoryAccess) (r : RaceCondition)
    (h : check_pair_for_race loc a1 a2 = some r) :
    r.location = loc ∧ r.tasks = (a1.taskId, a2.taskId)
    ∧ r.accessTypes = (a1.type, a2.type)
    ∧ a1.taskId ≠ a2.taskId
    ∧ a1.happensBefore.contains a2.taskId = false
    ∧ a2.happensBefore.contains a1.taskId = false
    ∧ (a1.happensBefore.any fun anc => a2.happensBefore.contains anc) = false
    ∧ (a1.type = .write ∨ a2.type = .write)
    ∧ ¬(a1.type = .read ∧ a2.type = .read)
    ∧ ((a1.type = .write ∧ a2.type = .write) → r.conflictType = "W-W")
    ∧ ((a1.type = .write ∧ a2.type = .read) → r.conflictType = "W-R")
    ∧ ((a1.type = .read ∧ a2.type = .write) → r.conflictType = "R-W") := by
  simp only [check_pair_for_race] at h
  by_cases hteq : a1.taskId = a2.taskId
  · rw [if_pos hteq] at h; cases h
  · rw [if_neg hteq] at h
    by_cases hhb : has_happens_before a1 a2 = true
    · rw [if_pos hhb] at h; cases h
    · rw [if_neg hhb] at h
      have hhb2 : a1.happensBefore.contains a2.taskId = false
          ∧ a2.happensBefore.contains a1.taskId = false
          ∧ (a1.happensBefore.any fun anc => a2.happensBefore.contains anc) = false := by
        simp only [has_happens_before, Bool.or_eq_true, not_or,
          Bool.not_eq_true] at hhb
        exact ⟨hhb.1.1, hhb.1.2, hhb.2⟩
      cases h1 : a1.type <;> cases h2 : a2.type <;>
        simp only [get_conflict_type, h1, h2] at h
      · simp at h
      · simp only [reduceCtorEq, and_false, false_and, if_false, and_self,
          if_true, reduceIte] at h
        cases h
        refine ⟨rfl, rfl, by simp [h1, h2], hteq, hhb2.1, hhb2.2.1, hhb2.2.2,
          Or.inr rfl, by simp, ?_, ?_, ?_⟩ <;> simp
      · simp only [reduceCtorEq, and_false, false_and, if_false, and_self,
          if_true, reduceIte] at h
        cases h
        refine ⟨rfl, rfl, by simp [h1, h2], hteq, hhb2.1, hhb2.2.1, hhb2.2.2,
          Or.inl rfl, by simp, ?_, ?_, ?_⟩ <;> simp
      · simp only [reduceCtorEq, and_false, false_and, if_false, and_self,
          if_true, reduceIte] at h
        cases h
        refine ⟨rfl, rfl, by simp [h1, h2], hteq, hhb2.1, hhb2.2.1, hhb2.2.2,
          Or.inl rfl, by simp, ?_, ?_, ?_⟩ <;> simp

/-- C8: every race reported by `detect_races` is a pair of recorded
accesses to the same location with (a) distinct task ids, (b) neither
happens-before set containing the other's task id and no shared
ancestor, and (c) at least one write; read-read pairs are never
reported, and the conflict type is W-W, W-R or R-W according to the two
access kinds. -/
theorem c8_detect_races_sound :
    ∀ accs r, r ∈ detect_races accs →
    ∃ loc l a1 a2,
      (loc, l) ∈ accs ∧ a1 ∈ l ∧ a2 ∈ l
      ∧ r.location = loc
      ∧ r.tasks = (a1.taskId, a2.taskId)
      ∧ r.accessTypes = (a1.type, a2.type)
      ∧ a1.taskId ≠ a2.taskId
      ∧ a1.happensBefore.contains a2.taskId = false
      ∧ a2.happensBefore.contains a1.taskId = false
      ∧ (a1.happensBefore.any fun anc => a2.happensBefore.contains anc) = false
      ∧ (a1.type = .write ∨ a2.type = .write)
      ∧ ¬(a1.type = .read ∧ a2.type = .read)
      ∧ ((a1.type = .write ∧ a2.type = .write) → r.conflictType = "W-W")
      ∧ ((a1.type = .write ∧ a2.type = .read) → r.conflictType = "W-R")
      ∧ ((a1.type = .read ∧ a2.type = .write) → r.conflictType = "R-W") := by
  intro accs r hr
  rw [detect_races, mem_races_foldl accs [] r] at hr
  rcases hr with h | ⟨le, hle, hmem⟩
  · simp at h
  · rw [List.mem_filterMap] at hmem
    rcases hmem with ⟨p, hp, hcheck⟩
    have hmem2 := mem_ordered_pairs le.2 p hp
    have hs := check_pair_sound le.1 p.1 p.2 r hcheck
    exact ⟨le.1, le.2, p.1, p.2, by simpa using hle, hmem2.1, hmem2.2,
      hs.1, hs.2.1, hs.2.2.1, hs.2.2.2.1, hs.2.2.2.2.1, hs.2.2.2.2.2.1,
      hs.2.2.2.2.2.2.1, hs.2.2.2.2.2.2.2.1, hs.2.2.2.2.2.2.2.2.1,
      hs.2.2.2.2.2.2.2.2.2.1, hs.2.2.2.2.2.2.2.2.2.2.1,
      hs.2.2.2.2.2.2.2.2.2.2.2⟩

/-- Witness for C8: the fixture table's W-W race is reported and
satisfies the soundness properties. -/
theorem c8_detect_races_sound_witness :
    c8_race ∈ detect_races c8_accs
    ∧ ∃ loc l a1 a2,
      (loc, l) ∈ c8_accs ∧ a1 ∈ l ∧ a2 ∈ l
      ∧ c8_race.location = loc
      ∧ c8_race.tasks = (a1.taskId, a2.taskId)
      ∧ c8_race.accessTypes = (a1.type, a2.type)
      ∧ a1.taskId ≠ a2.taskId
      ∧ a1.happensBefore.contains a2.taskId = false
      ∧ a2.happensBefore.contains a1.taskId = false
      ∧ (a1.happensBefore.any fun anc => a2.happensBefore.contains anc) = false
      ∧ (a1.type = .write ∨ a2.type = .write)
      ∧ ¬(a1.type = .read ∧ a2.type = .read)
      ∧ ((a1.type = .write ∧ a2.type = .write) → c8_race.conflictType = "W-W")
      ∧ ((a1.type = .write ∧ a2.type = .read) → c8_race.conflictType = "W-R")
      ∧ ((a1.type = .read ∧ a2.type = .write) → c8_race.conflictType = "R-W") := by
  have hm : c8_race ∈ detect_races c8_accs := by
    rw [show detect_races c8_accs = [c8_race] from rfl]
    exact List.mem_singleton.mpr rfl
  exact ⟨hm, c8_detect_races_sound c8_accs c8_race hm⟩

end Spiral
